import Mathlib

/-!
Verification of the finance order-book extraction pipeline
(`data_extraction.py`, `data_processing.py`).

The Python code is shallowly embedded:

* a worksheet "raw grid" (the result of `pd.read_excel(..., header=None,
  dtype=str)`) is a `List (List (Option String))`: every cell is either a
  string or NaN (`none`);
* a pandas `DataFrame` produced by the pipeline is a column-ordered
  association list `List (String × List Cell)`;
* broad `except` handlers that return a value are embedded as the value they
  return; numbers are exact rationals.
-/

set_option maxRecDepth 100000

namespace FinanceOB

/-- SCAN_ROWS from data_extraction.py: how many rows to search for header. -/
def SCAN_ROWS : Nat := 20

/-- TARGET_COLUMNS from data_extraction.py (the 18-entry canonical schema). -/
def TARGET_COLUMNS : List String :=
  ["JobNumber", "Office", "Office (Div)", "ProjectTitle", "Client",
   "Location (Country)", "Gross Fee (USD)", "Fee Earned (USD)",
   "Gross Fee Yet To Be Earned (USD)", "Currency", "GrossFee",
   "GrossFeeEarned", "GrossFeeYetToBeEarned", "Status", "NewProject",
   "StartDate", "Anticipated EndDate", "ProjectType"]

/-- COLUMN_ALIASES from data_extraction.py. -/
def COLUMN_ALIASES : List (String × List String) :=
  [("Location (Country)", ["Location (Country)", "Location", "Country"]),
   ("NewProject", ["NewProject", "New Project", "New_Project", "IsNew", "Is New"])]

/-- Character-level normalization used by `normalize`: lower-case, then the two
regex substitutions of the source (`[\s_-]+` removal, then `[^\w]` removal;
after the first pass the only `\w` characters left are alphanumerics).  The
leading `.strip()` of the source is subsumed by the whitespace removal. -/
def normChars (cs : List Char) : List Char :=
  ((cs.map Char.toLower).filter
      (fun c => ¬ (c.isWhitespace ∨ c = '_' ∨ c = '-'))).filter
    (fun c => c.isAlphanum ∨ c = '_')

/-- `normalize` from data_extraction.py.  A non-string input (`None`/NaN,
embedded as `none`) normalizes to the empty string. -/
def normalize (name : Option String) : String :=
  match name with
  | none => ""
  | some s => String.mk (normChars s.data)

/-- One raw worksheet cell: a string, or NaN (`none`). -/
abbrev RawCell := Option String

/-- A raw worksheet grid, row-major. -/
abbrev Grid := List (List RawCell)

/-- Check of the loop body of `find_header_row`:
`"jobnumber" in row and "currency" in row` over the normalized cell values. -/
def anchorsRow (row : List RawCell) : Bool :=
  (row.map normalize).contains "jobnumber" && (row.map normalize).contains "currency"

/-- Scan loop of `find_header_row`: `fuel` counts the remaining iterations of
`for r in range(max_r)`, `r` is the current row index. -/
def findHeaderAux (g : Grid) : Nat → Nat → Option Nat
  | 0, _ => none
  | fuel + 1, r =>
    if anchorsRow (g.getD r []) then some r else findHeaderAux g fuel (r + 1)

/-- `find_header_row` from data_extraction.py: earliest 0-based row index among
the first `min(len(df), SCAN_ROWS)` rows whose normalized cells contain both
anchors; `none` when not found. -/
def find_header_row (g : Grid) : Option Nat :=
  findHeaderAux g (min g.length SCAN_ROWS) 0

/-- Characterization of `findHeaderAux`: it returns the first index `k` in the
scanned window `[r, r+fuel)` whose row passes `anchorsRow`. -/
theorem findHeaderAux_eq_some (g : Grid) :
    ∀ (fuel r k : Nat),
      findHeaderAux g fuel r = some k ↔
        (r ≤ k ∧ k < r + fuel ∧ anchorsRow (g.getD k []) = true ∧
          ∀ j, r ≤ j → j < k → anchorsRow (g.getD j []) = false) := by
  intro fuel
  induction fuel with
  | zero =>
    intro r k
    simp only [findHeaderAux]
    constructor
    · intro h; cases h
    · rintro ⟨h1, h2, _⟩; omega
  | succ n ih =>
    intro r k
    simp only [findHeaderAux]
    by_cases h : anchorsRow (g.getD r []) = true
    · simp only [h, if_true]
      constructor
      · rintro ⟨rfl⟩
        exact ⟨le_refl r, by omega, h, fun j hrj hjr => absurd (lt_of_le_of_lt hrj hjr) (lt_irrefl r)⟩
      · rintro ⟨hrk, _, hk, hmin⟩
        rcases Nat.eq_or_lt_of_le hrk with rfl | hlt
        · rfl
        · have hf := hmin r (le_refl r) hlt
          rw [hf] at h
          cases h
    · rw [if_neg h]
      rw [ih (r + 1) k]
      have hfalse : anchorsRow (g.getD r []) = false := by
        cases hb : anchorsRow (g.getD r []) with
        | false => rfl
        | true => exact absurd hb h
      constructor
      · rintro ⟨hrk, hk, ha, hmin⟩
        refine ⟨by omega, by omega, ha, fun j hrj hjk => ?_⟩
        rcases Nat.eq_or_lt_of_le hrj with rfl | hlt
        · exact hfalse
        · exact hmin j hlt hjk
      · rintro ⟨hrk, hk, ha, hmin⟩
        have hrk' : r + 1 ≤ k := by
          rcases Nat.eq_or_lt_of_le hrk with rfl | hlt
          · rw [hfalse] at ha; cases ha
          · omega
        exact ⟨hrk', by omega, ha, fun j hrj hjk => hmin j (by omega) hjk⟩

/-- Characterization of `findHeaderAux` returning `none`: no index in the
window passes. -/
theorem findHeaderAux_eq_none (g : Grid) :
    ∀ (fuel r : Nat),
      findHeaderAux g fuel r = none ↔
        ∀ j, r ≤ j → j < r + fuel → anchorsRow (g.getD j []) = false := by
  intro fuel
  induction fuel with
  | zero =>
    intro r
    simp only [findHeaderAux]
    constructor
    · intro _ j h1 h2; omega
    · intro _; trivial
  | succ n ih =>
    intro r
    simp only [findHeaderAux]
    by_cases h : anchorsRow (g.getD r []) = true
    · simp only [h, if_true]
      constructor
      · intro hcon; cases hcon
      · intro hall
        have hf := hall r (le_refl r) (by omega)
        rw [hf] at h
        cases h
    · rw [if_neg h]
      rw [ih (r + 1)]
      have hfalse : anchorsRow (g.getD r []) = false := by
        cases hb : anchorsRow (g.getD r []) with
        | false => rfl
        | true => exact absurd hb h
      constructor
      · intro hall j h1 h2
        rcases Nat.eq_or_lt_of_le h1 with rfl | hlt
        · exact hfalse
        · exact hall j hlt (by omega)
      · intro hall j h1 h2
        exact hall j (by omega) (by omega)

/-- Membership phrasing of `anchorsRow`. -/
theorem anchorsRow_iff (row : List RawCell) :
    anchorsRow row = true ↔
      "jobnumber" ∈ row.map normalize ∧ "currency" ∈ row.map normalize := by
  simp [anchorsRow, List.contains, List.elem_iff]

/-- C2: `find_header_row` returns the smallest 0-based row index
`r < min(SCAN_ROWS, rowCount)` whose normalized cell values contain both the
normalized form of "JobNumber" and the normalized form of "Currency", and
`none` exactly when no such row exists (in particular for the empty grid). -/
theorem find_header_row_spec (g : Grid) :
    (∀ k, find_header_row g = some k ↔
      (k < min SCAN_ROWS g.length ∧
        normalize (some "JobNumber") ∈ (g.getD k []).map normalize ∧
        normalize (some "Currency") ∈ (g.getD k []).map normalize ∧
        ∀ j, j < k →
          ¬ (normalize (some "JobNumber") ∈ (g.getD j []).map normalize ∧
             normalize (some "Currency") ∈ (g.getD j []).map normalize))) ∧
    (find_header_row g = none ↔
      ∀ j, j < min SCAN_ROWS g.length →
        ¬ (normalize (some "JobNumber") ∈ (g.getD j []).map normalize ∧
           normalize (some "Currency") ∈ (g.getD j []).map normalize)) := by
  have hJ : normalize (some "JobNumber") = "jobnumber" := by decide
  have hC : normalize (some "Currency") = "currency" := by decide
  have hiff : ∀ (row : List RawCell),
      (normalize (some "JobNumber") ∈ row.map normalize ∧
       normalize (some "Currency") ∈ row.map normalize) ↔ anchorsRow row = true := by
    intro row
    rw [hJ, hC, anchorsRow_iff]
  have hnot : ∀ (row : List RawCell),
      (¬ (normalize (some "JobNumber") ∈ row.map normalize ∧
          normalize (some "Currency") ∈ row.map normalize)) ↔ anchorsRow row = false := by
    intro row
    rw [hiff row]
    cases h : anchorsRow row <;> simp
  constructor
  · intro k
    rw [show find_header_row g = findHeaderAux g (min g.length SCAN_ROWS) 0 from rfl,
        findHeaderAux_eq_some]
    constructor
    · rintro ⟨_, hk, ha, hmin⟩
      refine ⟨by omega, ?_, ?_, fun j hj => (hnot _).mpr (hmin j (Nat.zero_le j) hj)⟩
      · exact ((hiff _).mpr ha).1
      · exact ((hiff _).mpr ha).2
    · rintro ⟨hk, h1, h2, hmin⟩
      exact ⟨Nat.zero_le k, by omega, (hiff _).mp ⟨h1, h2⟩,
        fun j _ hj => (hnot _).mp (hmin j hj)⟩
  · rw [show find_header_row g = findHeaderAux g (min g.length SCAN_ROWS) 0 from rfl,
        findHeaderAux_eq_none]
    constructor
    · intro hall j hj
      exact (hnot _).mpr (hall j (Nat.zero_le j) (by omega))
    · intro hall j _ hj
      exact (hnot _).mp (hall j (by omega))

/-- Witness for `find_header_row_spec`: on a concrete grid whose second row
holds the two anchors (in denormalized spellings), the header row is row 1. -/
theorem find_header_row_spec_witness :
    find_header_row [[some "Order book"], [some " Job_Number", some "CURRENCY", none]] = some 1 :=
  ((find_header_row_spec [[some "Order book"], [some " Job_Number", some "CURRENCY", none]]).1 1).mpr
    (by decide)

/-- A value in a produced table: NaN, a text cell, or a coerced number
(numbers are modelled as exact rationals). -/
inductive Cell
  | na
  | str (s : String)
  | num (q : ℚ)
deriving DecidableEq

/-- Embedding of a raw cell into a table cell. -/
def cellOfRaw : RawCell → Cell
  | none => .na
  | some s => .str s

/-- A pandas DataFrame with string column labels, as a column-ordered
association list.  `pd.DataFrame()` is `[]`. -/
abbrev Table := List (String × List Cell)

/-- Python's `str.strip()` on a character list: drop leading and trailing
whitespace. -/
def stripChars (cs : List Char) : List Char :=
  ((cs.dropWhile Char.isWhitespace).reverse.dropWhile Char.isWhitespace).reverse

/-- Python's `str.strip()`. -/
def pyStrip (s : String) : String :=
  String.mk (stripChars s.data)

/-- Label cleaning in `read_sheet`: a `None`/NaN or blank header cell at
position `i` becomes `unnamed_col_i`; otherwise the stripped string. -/
def cleanLabel (i : Nat) (c : RawCell) : String :=
  match c with
  | none => "unnamed_col_" ++ toString i
  | some s => if pyStrip s = "" then "unnamed_col_" ++ toString i else pyStrip s

/-- Update of the `seen_cols` dict. -/
def updSeen (seen : String → Option Nat) (k : String) (v : Nat) : String → Option Nat :=
  fun x => if x = k then some v else seen x

/-- Cleaning-and-deduplication loop of `read_sheet` (lines 83–98): `i` is the
`enumerate` index, `seen` the `seen_cols` dict.  A repeated label is renamed
`<label>_duplicate_<count>`; the renamed form itself is not recorded in
`seen`. -/
def dedupAux (i : Nat) (seen : String → Option Nat) : List RawCell → List String
  | [] => []
  | c :: rest =>
    let cl := cleanLabel i c
    match seen cl with
    | some n =>
      (cl ++ "_duplicate_" ++ toString (n + 1)) ::
        dedupAux (i + 1) (updSeen seen cl (n + 1)) rest
    | none => cl :: dedupAux (i + 1) (updSeen seen cl 0) rest

/-- `cleaned_cols` computed from a header row. -/
def cleanedCols (row : List RawCell) : List String :=
  dedupAux 0 (fun _ => none) row

/-- The `normalized_map` dict of `read_sheet` (lines 105–108), built
last-write-wins over the cleaned column labels. -/
def buildNormMap (cols : List String) : String → Option String :=
  cols.foldl (fun m c => fun k => if k = normalize (some c) then some c else m k)
    (fun _ => none)

/-- Candidate source spellings for a target column: its alias list when
present in `COLUMN_ALIASES`, else the singleton of its own name. -/
def possibleNames (t : String) : List String :=
  match List.lookup t COLUMN_ALIASES with
  | some l => l
  | none => [t]

/-- Column resolution loop of `read_sheet` (lines 113–131): probe the
candidate names in order and take the first whose normalized form hits
`normalized_map`. -/
def resolveTarget (cleaned : List String) (t : String) : Option String :=
  (possibleNames t).findSome? (fun p => buildNormMap cleaned (normalize (some p)))

/-- Index of the first occurrence of a label among the cleaned columns
(`data[actual_col]` selects by label; labels produced by the deduplication
step are unique in all relevant runs). -/
def idxOfStr (a : String) : List String → Nat
  | [] => 0
  | x :: xs => if x = a then 0 else 1 + idxOfStr a xs

/-- The values of the data column at index `i`, in row order. -/
def dataColumn (rows : List (List RawCell)) (i : Nat) : List Cell :=
  rows.map (fun r => cellOfRaw (r.getD i none))

/-- Number of rows of a DataFrame in this model (all columns of a produced
table have equal length). -/
def rowCount (t : Table) : Nat :=
  match t with
  | [] => 0
  | (_, vs) :: _ => vs.length

/-- `df.empty`: no columns, or no rows. -/
def tableEmpty (t : Table) : Bool :=
  t.isEmpty || t.all (fun p => p.2.isEmpty)

/-- The `numeric_columns` list of `read_sheet` (lines 146–149). -/
def numeric_columns : List String :=
  ["Gross Fee (USD)", "Fee Earned (USD)", "Gross Fee Yet To Be Earned (USD)",
   "GrossFee", "GrossFeeEarned", "GrossFeeYetToBeEarned"]

/-- Character class `[\d.,]` of the accounting-negative pattern. -/
def isAmtChar (c : Char) : Bool := c.isDigit || c = '.' || c = ','

/-- Scan of `re.sub(r"\(([\d\.,]+)\)", r"-\1", s)`: at each `(` take the
maximal run of `[\d.,]` characters; when the run is non-empty and followed by
`)`, emit `-run` and continue after the match; otherwise keep scanning.
`fuel` bounds the recursion and is always at least the list length. -/
def rewriteParensGo : Nat → List Char → List Char
  | 0, cs => cs
  | _ + 1, [] => []
  | fuel + 1, c :: rest =>
    if c = '(' then
      let run := rest.takeWhile isAmtChar
      let rest2 := rest.dropWhile isAmtChar
      if !run.isEmpty && rest2.head? == some ')' then
        '-' :: (run ++ rewriteParensGo fuel rest2.tail)
      else '(' :: rewriteParensGo fuel rest
    else c :: rewriteParensGo fuel rest

/-- The accounting-negative rewrite of `_to_number` (line 65). -/
def rewriteParens (cs : List Char) : List Char :=
  rewriteParensGo cs.length cs

/-- The second substitution of `_to_number` (line 66): keep only digits,
sign, and decimal point. -/
def stripToNumChars (cs : List Char) : List Char :=
  cs.filter (fun c => c.isDigit || c = '.' || c = '-')

/-- Value of a run of decimal digits. -/
def digitsVal (cs : List Char) : Nat :=
  cs.foldl (fun a c => 10 * a + (c.toNat - 48)) 0

/-- Parse an unsigned decimal number: digits with at most one decimal point
and at least one digit (`pd.to_numeric` accepts `".5"` and `"5."`). -/
def parseUnsigned (cs : List Char) : Option ℚ :=
  let intPart := cs.takeWhile Char.isDigit
  match cs.dropWhile Char.isDigit with
  | [] => if intPart.isEmpty then none else some (digitsVal intPart : ℚ)
  | '.' :: frac =>
    if frac.all Char.isDigit && !(intPart.isEmpty && frac.isEmpty) then
      some (Rat.divInt (digitsVal intPart * 10 ^ frac.length + digitsVal frac)
        (10 ^ frac.length))
    else none
  | _ => none

/-- `pd.to_numeric(s, errors="coerce")` on one already-stripped string: a
signed decimal number, or `none` when unparseable. -/
def parseNumber (cs : List Char) : Option ℚ :=
  match cs with
  | [] => none
  | '-' :: rest => (parseUnsigned rest).map (fun q => -q)
  | _ => parseUnsigned cs

/-- `series.astype(str)` on one cell: NaN becomes the string "nan".  The
`num` case cannot occur in the pipeline (each column is coerced at most
once); it is given the printed rational for totality. -/
def cellStr : Cell → String
  | .na => "nan"
  | .str s => s
  | .num q => toString q

/-- `_to_number` applied to one cell: rewrite accounting negatives, strip
everything but digits, sign and decimal point, then parse; failure is NaN. -/
def toNumberCell (c : Cell) : Cell :=
  match parseNumber (stripToNumChars (rewriteParens (cellStr c).data)) with
  | some q => .num q
  | none => .na

/-- `_to_number` from data_extraction.py (lines 62–67). -/
def _to_number (vs : List Cell) : List Cell :=
  vs.map toNumberCell

/-- One iteration of the numeric-conversion loop of `read_sheet`
(lines 151–156): coerce column `c` when it is present and not entirely
absent. -/
def coerceStep (t : Table) (c : String) : Table :=
  match List.lookup c t with
  | none => t
  | some vs =>
    if vs.all (fun v => v == Cell.na) then t
    else t.map (fun p => if p.1 = c then (p.1, _to_number p.2) else p)

/-- Width of the pandas DataFrame read from a grid (ragged rows are padded
with NaN to the maximal length). -/
def gridWidth (g : Grid) : Nat :=
  (g.map List.length).foldr max 0

/-- Rectangularize a raw grid the way `pd.read_excel` does. -/
def rectify (g : Grid) : Grid :=
  g.map (fun r => r ++ List.replicate (gridWidth g - r.length) none)

/-- The `out` DataFrame of `read_sheet` right after the column-resolution
loop (lines 110–131): the matched target columns, in `TARGET_COLUMNS`
iteration order, each copying its resolved source column. -/
def resolvedTable (cleaned : List String) (dataRows : List (List RawCell)) : Table :=
  TARGET_COLUMNS.filterMap (fun t =>
    (resolveTarget cleaned t).map
      (fun a => (t, dataColumn dataRows (idxOfStr a cleaned))))

/-- `out.reindex(columns=TARGET_COLUMNS)` (line 139): every canonical column
in order, unmatched ones filled with NaN over the current row count. -/
def reindexedTable (cleaned : List String) (dataRows : List (List RawCell)) : Table :=
  TARGET_COLUMNS.map (fun t =>
    (t, match List.lookup t (resolvedTable cleaned dataRows) with
        | some vs => vs
        | none => List.replicate (rowCount (resolvedTable cleaned dataRows)) Cell.na))

/-- `read_sheet` from data_extraction.py (lines 69–159), as a function of the
raw grid of the requested sheet.  An empty grid or an absent header row
yields the column-less `pd.DataFrame()`, i.e. `[]`. -/
def read_sheet (raw : Grid) : Table :=
  if raw.isEmpty then []
  else
    match find_header_row (rectify raw) with
    | none => []
    | some hdr =>
      let cleaned := cleanedCols ((rectify raw).getD hdr [])
      let dataRows := (rectify raw).drop (hdr + 1)
      let reindexed := reindexedTable cleaned dataRows
      if tableEmpty reindexed then TARGET_COLUMNS.map (fun t => (t, []))
      else numeric_columns.foldl coerceStep reindexed

/-- A workbook as `read_file` sees it: whether `pd.ExcelFile`/
`openpyxl.load_workbook` can open it at all, and its sheets with their
visibility and raw grid (`none` models a sheet whose read raises). -/
structure Workbook where
  openable : Bool
  sheets : List (String × Bool × Option Grid)

/-- `pd.DataFrame(columns=TARGET_COLUMNS)`. -/
def emptySchemaTable : Table :=
  TARGET_COLUMNS.map (fun t => (t, []))

/-- `pd.concat(frames, ignore_index=True)` over frames that all carry the
canonical schema columns. -/
def concatTables (fs : List Table) : Table :=
  TARGET_COLUMNS.map (fun t => (t, (fs.map (fun f => (List.lookup t f).getD [])).flatten))

/-- `read_file` from data_extraction.py (lines 162–210).  The `except`
around `pd.ExcelFile` (lines 176–181) catches an unopenable workbook and
returns `pd.DataFrame(columns=TARGET_COLUMNS)`; per-sheet failures are
caught and skipped; empty per-sheet results are dropped.  No branch raises,
so every path is `Except.ok`. -/
def read_file (wb : Workbook) : Except String Table :=
  if ¬ wb.openable then Except.ok emptySchemaTable
  else
    let visible := wb.sheets.filter (fun s => s.2.1)
    let frames := visible.filterMap (fun s =>
      match s.2.2 with
      | none => none
      | some g =>
        let df := read_sheet g
        if tableEmpty df then none else some df)
    if frames.isEmpty then Except.ok emptySchemaTable
    else Except.ok (concatTables frames)

/-- The `month_map` of `extract_date_from_filename`, in dict-literal
(insertion) order; each entry is key, month number, month name. -/
def month_map : List (String × Nat × String) :=
  [("jan", 1, "Jan"), ("january", 1, "Jan"),
   ("feb", 2, "Feb"), ("february", 2, "Feb"),
   ("mar", 3, "Mar"), ("march", 3, "Mar"),
   ("apr", 4, "Apr"), ("april", 4, "Apr"),
   ("may", 5, "May"),
   ("jun", 6, "Jun"), ("june", 6, "Jun"),
   ("jul", 7, "Jul"), ("july", 7, "Jul"),
   ("aug", 8, "Aug"), ("august", 8, "Aug"),
   ("sep", 9, "Sep"), ("sept", 9, "Sep"), ("september", 9, "Sep"),
   ("oct", 10, "Oct"), ("october", 10, "Oct"),
   ("nov", 11, "Nov"), ("november", 11, "Nov"),
   ("dec", 12, "Dec"), ("december", 12, "Dec")]

/-- Match of the regex `20\d{2}` at the head of the character list, with the
matched year value. -/
def yearHead : List Char → Option Nat
  | '2' :: '0' :: a :: b :: _ =>
    if a.isDigit && b.isDigit then
      some (2000 + 10 * (a.toNat - 48) + (b.toNat - 48))
    else none
  | _ => none

/-- `re.search(r"20\d{2}", _)`: leftmost match wins. -/
def findYearList : List Char → Option Nat
  | [] => none
  | c :: rest =>
    match yearHead (c :: rest) with
    | some y => some y
    | none => findYearList rest

/-- Year extraction of `extract_date_from_filename`. -/
def findYear (s : String) : Option Nat :=
  findYearList s.data

/-- Python's `pat in hay` substring test on character lists. -/
def containsSubList (pat : List Char) : List Char → Bool
  | [] => pat.isEmpty
  | l@(_ :: t) => pat.isPrefixOf l || containsSubList pat t

/-- Python's `pat in hay` substring test on strings. -/
def containsSub (hay pat : String) : Bool :=
  containsSubList pat.data hay.data

/-- `filename.lower()`. -/
def lowerStr (s : String) : String :=
  String.mk (s.data.map Char.toLower)

/-- `extract_date_from_filename` from data_processing.py (lines 7–44):
year from the first `20\d{2}` match, month from the first `month_map` key
(in table order) contained in the lower-cased filename.  Returns
(year, month name, month number). -/
def extract_date_from_filename (filename : String) :
    Option Nat × Option String × Option Nat :=
  let year := findYear filename
  match month_map.find? (fun e => containsSub (lowerStr filename) e.1) with
  | some e => (year, some e.2.2, some e.2.1)
  | none => (year, none, none)

/-! MD5 (RFC 1321), on natural numbers reduced mod 2^32. -/

/-- 2^32. -/
def M32 : Nat := 4294967296

/-- Addition mod 2^32. -/
def add32 (a b : Nat) : Nat := (a + b) % M32

/-- Left rotation of a 32-bit word. -/
def rotl32 (x n : Nat) : Nat := ((x <<< n) % M32) ||| (x >>> (32 - n))

/-- Bitwise complement of a 32-bit word. -/
def not32 (x : Nat) : Nat := x ^^^ (M32 - 1)

/-- The 64 MD5 sine-derived constants. -/
def md5K : List Nat :=
  [0xd76aa478, 0xe8c7b756, 0x242070db, 0xc1bdceee,
   0xf57c0faf, 0x4787c62a, 0xa8304613, 0xfd469501,
   0x698098d8, 0x8b44f7af, 0xffff5bb1, 0x895cd7be,
   0x6b901122, 0xfd987193, 0xa679438e, 0x49b40821,
   0xf61e2562, 0xc040b340, 0x265e5a51, 0xe9b6c7aa,
   0xd62f105d, 0x02441453, 0xd8a1e681, 0xe7d3fbc8,
   0x21e1cde6, 0xc33707d6, 0xf4d50d87, 0x455a14ed,
   0xa9e3e905, 0xfcefa3f8, 0x676f02d9, 0x8d2a4c8a,
   0xfffa3942, 0x8771f681, 0x6d9d6122, 0xfde5380c,
   0xa4beea44, 0x4bdecfa9, 0xf6bb4b60, 0xbebfbc70,
   0x289b7ec6, 0xeaa127fa, 0xd4ef3085, 0x04881d05,
   0xd9d4d039, 0xe6db99e5, 0x1fa27cf8, 0xc4ac5665,
   0xf4292244, 0x432aff97, 0xab9423a7, 0xfc93a039,
   0x655b59c3, 0x8f0ccc92, 0xffeff47d, 0x85845dd1,
   0x6fa87e4f, 0xfe2ce6e0, 0xa3014314, 0x4e0811a1,
   0xf7537e82, 0xbd3af235, 0x2ad7d2bb, 0xeb86d391]

/-- The 64 MD5 per-round left-rotation amounts. -/
def md5S : List Nat :=
  [7, 12, 17, 22, 7, 12, 17, 22, 7, 12, 17, 22, 7, 12, 17, 22,
   5, 9, 14, 20, 5, 9, 14, 20, 5, 9, 14, 20, 5, 9, 14, 20,
   4, 11, 16, 23, 4, 11, 16, 23, 4, 11, 16, 23, 4, 11, 16, 23,
   6, 10, 15, 21, 6, 10, 15, 21, 6, 10, 15, 21, 6, 10, 15, 21]

/-- The MD5 round function for step `i`. -/
def md5F (i b c d : Nat) : Nat :=
  if i < 16 then (b &&& c) ||| (not32 b &&& d)
  else if i < 32 then (d &&& b) ||| (not32 d &&& c)
  else if i < 48 then b ^^^ c ^^^ d
  else c ^^^ (b ||| not32 d)

/-- The MD5 message-word index for step `i`. -/
def md5G (i : Nat) : Nat :=
  if i < 16 then i
  else if i < 32 then (5 * i + 1) % 16
  else if i < 48 then (3 * i + 5) % 16
  else (7 * i) % 16

/-- One MD5 step on the state (a, b, c, d). -/
def md5Step (m : List Nat) (st : Nat × Nat × Nat × Nat) (i : Nat) :
    Nat × Nat × Nat × Nat :=
  let (a, b, c, d) := st
  let f := add32 (add32 (add32 a (md5F i b c d)) (md5K.getD i 0)) (m.getD (md5G i) 0)
  (d, add32 b (rotl32 f (md5S.getD i 0)), b, c)

/-- Split a byte list into 64-byte blocks (`fuel` at least the length). -/
def chunks64 : Nat → List Nat → List (List Nat)
  | 0, _ => []
  | _ + 1, [] => []
  | fuel + 1, l => l.take 64 :: chunks64 fuel (l.drop 64)

/-- Little-endian word value of (up to four) bytes. -/
def leWord (bs : List Nat) : Nat :=
  bs.foldr (fun b acc => b + 256 * acc) 0

/-- The sixteen little-endian 32-bit words of one 64-byte block. -/
def wordsOfBlock (block : List Nat) : List Nat :=
  (List.range 16).map (fun j => leWord ((block.drop (4 * j)).take 4))

/-- The four little-endian bytes of a 32-bit word. -/
def wordBytes (w : Nat) : List Nat :=
  [w % 256, w / 256 % 256, w / 65536 % 256, w / 16777216 % 256]

/-- MD5 padding: a 0x80 byte, zeros to 56 mod 64, then the bit length as a
64-bit little-endian integer. -/
def md5Pad (msg : List Nat) : List Nat :=
  let len := msg.length
  let zeros := (56 + 64 - (len + 1) % 64) % 64
  let bitLen := (len * 8) % (M32 * M32)
  msg ++ 128 :: (List.replicate zeros 0 ++ (List.range 8).map (fun i => bitLen / 256 ^ i % 256))

/-- The MD5 initial state. -/
def md5Init : Nat × Nat × Nat × Nat :=
  (0x67452301, 0xefcdab89, 0x98badcfe, 0x10325476)

/-- Process one 64-byte block. -/
def md5Block (st : Nat × Nat × Nat × Nat) (block : List Nat) :
    Nat × Nat × Nat × Nat :=
  let m := wordsOfBlock block
  let r := (List.range 64).foldl (md5Step m) st
  (add32 r.1 st.1, add32 r.2.1 st.2.1, add32 r.2.2.1 st.2.2.1, add32 r.2.2.2 st.2.2.2)

/-- The 16-byte MD5 digest of a byte sequence. -/
def md5Bytes (msg : List Nat) : List Nat :=
  let padded := md5Pad msg
  let r := (chunks64 padded.length padded).foldl md5Block md5Init
  wordBytes r.1 ++ wordBytes r.2.1 ++ wordBytes r.2.2.1 ++ wordBytes r.2.2.2

/-- Lower-case hex digit. -/
def hexDigitChar (d : Nat) : Char :=
  if d < 10 then Char.ofNat (48 + d) else Char.ofNat (87 + d)

/-- Two hex digits of a byte. -/
def hexByte (b : Nat) : List Char :=
  [hexDigitChar (b / 16), hexDigitChar (b % 16)]

/-- UTF-8 encoding of one character (`str.encode()`). -/
def utf8Char (c : Char) : List Nat :=
  let n := c.toNat
  if n < 128 then [n]
  else if n < 2048 then [192 + n / 64, 128 + n % 64]
  else if n < 65536 then [224 + n / 4096, 128 + n / 64 % 64, 128 + n % 64]
  else [240 + n / 262144, 128 + n / 4096 % 64, 128 + n / 64 % 64, 128 + n % 64]

/-- UTF-8 bytes of a string. -/
def strBytes (s : String) : List Nat :=
  (s.data.map utf8Char).flatten

/-- `hashlib.md5(s.encode()).hexdigest()`. -/
def md5Hex (s : String) : String :=
  String.mk ((md5Bytes (strBytes s)).map hexByte).flatten

/-- The `key_fields` of `calculate_row_hash`. -/
def key_fields : List String :=
  ["JobNumber", "ProjectTitle", "Client", "Office"]

/-- `str(row_dict.get(f, ''))`: a missing key contributes the empty string;
a present NaN value stringifies to "nan" (see `cellStr`). -/
def dictGetStr (row : List (String × Cell)) (f : String) : String :=
  match List.lookup f row with
  | some v => cellStr v
  | none => ""

/-- `calculate_row_hash` from data_processing.py (lines 46–52). -/
def calculate_row_hash (row : List (String × Cell)) : String :=
  md5Hex (String.intercalate "|" (key_fields.map (dictGetStr row)))

/-- Sanity check of the MD5 embedding against an RFC 1321 test vector. -/
theorem md5Hex_rfc_vector : md5Hex "abc" = "900150983cd24fb0d6963f7d28e17f72" := by
  decide

/-- `find?` returns the first element satisfying the predicate. -/
theorem find?_first {α : Type} (p : α → Bool) (pre : List α) (x : α) (post : List α)
    (hpre : ∀ y ∈ pre, p y = false) (hx : p x = true) :
    (pre ++ x :: post).find? p = some x := by
  induction pre with
  | nil => simp [List.find?, hx]
  | cons a as ih =>
    have ha : p a = false := hpre a (List.mem_cons_self a as)
    simp only [List.cons_append, List.find?, ha]
    exact ih (fun y hy => hpre y (List.mem_cons_of_mem a hy))

/-- Year scan: the leftmost `20\d{2}` match wins. -/
theorem findYearList_first (rest : List Char) (a b : Char)
    (ha : a.isDigit = true) (hb : b.isDigit = true) :
    ∀ (pre : List Char),
      (∀ j, j < pre.length → yearHead ((pre ++ '2' :: '0' :: a :: b :: rest).drop j) = none) →
      findYearList (pre ++ '2' :: '0' :: a :: b :: rest) =
        some (2000 + 10 * (a.toNat - 48) + (b.toNat - 48)) := by
  intro pre
  induction pre with
  | nil =>
    intro _
    simp [findYearList, yearHead, ha, hb]
  | cons c cs ih =>
    intro hmin
    have h0 : yearHead (c :: (cs ++ '2' :: '0' :: a :: b :: rest)) = none := by
      have := hmin 0 (by simp)
      simpa using this
    rw [List.cons_append, findYearList, h0]
    exact ih (fun j hj => by
      have := hmin (j + 1) (by simpa using Nat.succ_lt_succ hj)
      simpa using this)

/-- C9: `extract_date_from_filename` on the two specification examples, and
in general: the year is the value of the leftmost `20\d{2}` match, and the
month is decided by the first `month_map` entry (in table-definition order)
whose key is contained, case-insensitively, in the filename. -/
theorem extract_date_from_filename_spec :
    extract_date_from_filename "1_Order_Book_Mar_2025.xlsx" = (some 2025, some "Mar", some 3) ∧
    extract_date_from_filename "no_date_here.xlsx" = (none, none, none) ∧
    (∀ (pre rest : List Char) (a b : Char),
      a.isDigit = true → b.isDigit = true →
      (∀ j, j < pre.length → yearHead ((pre ++ '2' :: '0' :: a :: b :: rest).drop j) = none) →
      findYear (String.mk (pre ++ '2' :: '0' :: a :: b :: rest)) =
        some (2000 + 10 * (a.toNat - 48) + (b.toNat - 48))) ∧
    (∀ (fn : String) (e : String × Nat × String) (pre post : List (String × Nat × String)),
      month_map = pre ++ e :: post →
      (∀ e2 ∈ pre, containsSub (lowerStr fn) e2.1 = false) →
      containsSub (lowerStr fn) e.1 = true →
      (extract_date_from_filename fn).2 = (some e.2.2, some e.2.1)) := by
  refine ⟨by decide, by decide, ?_, ?_⟩
  · intro pre rest a b ha hb hmin
    exact findYearList_first rest a b ha hb pre hmin
  · intro fn e pre post hsplit hpre he
    unfold extract_date_from_filename
    rw [hsplit, find?_first (fun e2 => containsSub (lowerStr fn) e2.1) pre e post hpre he]

/-- Witness for `extract_date_from_filename_spec`: the year rule applied to a
concrete decomposition of "Book_2025.xlsx", and the month rule applied to
"1_Order_Book_Mar_2025.xlsx" at the "mar" entry of `month_map`. -/
theorem extract_date_from_filename_spec_witness :
    findYear (String.mk ("Book_".data ++ '2' :: '0' :: '2' :: '5' :: ".xlsx".data)) =
      some (2000 + 10 * ('2'.toNat - 48) + ('5'.toNat - 48)) ∧
    (extract_date_from_filename "1_Order_Book_Mar_2025.xlsx").2 = (some "Mar", some 3) := by
  constructor
  · exact extract_date_from_filename_spec.2.2.1 "Book_".data ".xlsx".data '2' '5'
      (by decide) (by decide) (by decide)
  · exact extract_date_from_filename_spec.2.2.2 "1_Order_Book_Mar_2025.xlsx"
      ("mar", 3, "Mar")
      [("jan", 1, "Jan"), ("january", 1, "Jan"), ("feb", 2, "Feb"), ("february", 2, "Feb")]
      [("march", 3, "Mar"),
       ("apr", 4, "Apr"), ("april", 4, "Apr"),
       ("may", 5, "May"),
       ("jun", 6, "Jun"), ("june", 6, "Jun"),
       ("jul", 7, "Jul"), ("july", 7, "Jul"),
       ("aug", 8, "Aug"), ("august", 8, "Aug"),
       ("sep", 9, "Sep"), ("sept", 9, "Sep"), ("september", 9, "Sep"),
       ("oct", 10, "Oct"), ("october", 10, "Oct"),
       ("nov", 11, "Nov"), ("november", 11, "Nov"),
       ("dec", 12, "Dec"), ("december", 12, "Dec")]
      (by decide) (by decide) (by decide)

/-- C3: `calculate_row_hash` is the MD5 hex digest of the `|`-joined string
forms of the four key fields (a missing key contributing the empty string),
and it is a pure function of exactly those four fields: rows that agree on
them hash identically. -/
theorem calculate_row_hash_spec :
    (∀ row : List (String × Cell),
      calculate_row_hash row =
        md5Hex (String.intercalate "|"
          [dictGetStr row "JobNumber", dictGetStr row "ProjectTitle",
           dictGetStr row "Client", dictGetStr row "Office"])) ∧
    (∀ r1 r2 : List (String × Cell),
      (∀ f ∈ key_fields, List.lookup f r1 = List.lookup f r2) →
      calculate_row_hash r1 = calculate_row_hash r2) := by
  constructor
  · intro row
    rfl
  · intro r1 r2 h
    unfold calculate_row_hash
    have hmap : key_fields.map (dictGetStr r1) = key_fields.map (dictGetStr r2) := by
      apply List.map_congr_left
      intro f hf
      unfold dictGetStr
      rw [h f hf]
    rw [hmap]

/-- Witness for `calculate_row_hash_spec`: two concrete rows that agree on
the four key fields but differ in `Status` hash identically. -/
theorem calculate_row_hash_spec_witness :
    calculate_row_hash
        [("JobNumber", .str "J-1"), ("ProjectTitle", .str "Tower"), ("Client", .str "Acme"),
         ("Office", .na), ("Status", .str "Live")] =
      calculate_row_hash
        [("JobNumber", .str "J-1"), ("ProjectTitle", .str "Tower"), ("Client", .str "Acme"),
         ("Office", .na), ("Status", .str "Closed")] :=
  calculate_row_hash_spec.2
    [("JobNumber", .str "J-1"), ("ProjectTitle", .str "Tower"), ("Client", .str "Acme"),
     ("Office", .na), ("Status", .str "Live")]
    [("JobNumber", .str "J-1"), ("ProjectTitle", .str "Tower"), ("Client", .str "Acme"),
     ("Office", .na), ("Status", .str "Closed")]
    (by decide)

/-- When some element of `l1` fails `p`, `dropWhile` stops inside `l1`: the
append splits, and the first surviving element is a member of `l1` failing
`p`. -/
theorem dropWhile_stops {α : Type} (p : α → Bool) (l1 l2 : List α) (x : α)
    (hx : x ∈ l1) (hpx : p x = false) :
    (l1 ++ l2).dropWhile p = l1.dropWhile p ++ l2 ∧
      ∃ h tl, l1.dropWhile p = h :: tl ∧ p h = false ∧ h ∈ l1 := by
  induction l1 with
  | nil => cases hx
  | cons a as ih =>
    cases hpa : p a with
    | true =>
      have hxas : x ∈ as := by
        rcases List.mem_cons.mp hx with rfl | hmem
        · rw [hpa] at hpx; cases hpx
        · exact hmem
      obtain ⟨h1, h, tl, h2, h3, h4⟩ := ih hxas
      refine ⟨?_, h, tl, ?_, h3, List.mem_cons_of_mem a h4⟩
      · simp only [List.cons_append, List.dropWhile_cons, hpa]
        exact h1
      · simp only [List.dropWhile_cons, hpa]
        exact h2
    | false =>
      refine ⟨?_, a, as, ?_, hpa, List.mem_cons_self a as⟩
      · simp [List.dropWhile_cons, hpa]
      · simp [List.dropWhile_cons, hpa]

/-- C10: the accounting-negative rewrite fires only when the parenthesized
content is made of `[\d.,]` characters alone — content containing any other
character (and no `)`) leaves the opening parenthesis in place, so
`"($1,234)"` is not negated and coerces to the positive number 1234. -/
theorem paren_rewrite_only_amount_chars :
    (∀ (content rest : List Char),
      (∃ ch ∈ content, isAmtChar ch = false) → ')' ∉ content →
      rewriteParens ('(' :: (content ++ ')' :: rest)) =
        '(' :: rewriteParens (content ++ ')' :: rest)) ∧
    _to_number [Cell.str "($1,234)"] = [Cell.num 1234] := by
  constructor
  · intro content rest hex hnotin
    obtain ⟨ch, hmemc, hch⟩ := hex
    obtain ⟨happ, h, tl, hdw, hph, hmem⟩ :=
      dropWhile_stops isAmtChar content (')' :: rest) ch hmemc hch
    have hL : (content ++ ')' :: rest).dropWhile isAmtChar = h :: (tl ++ ')' :: rest) := by
      rw [happ, hdw]
      simp
    have hh : h ≠ ')' := fun e => hnotin (e ▸ hmem)
    show rewriteParensGo ('(' :: (content ++ ')' :: rest)).length
        ('(' :: (content ++ ')' :: rest)) = _
    rw [List.length_cons]
    simp only [rewriteParensGo, if_pos rfl, hL, List.head?_cons]
    have hbeq : ((some h == some ')') : Bool) = false := by
      simp [hh]
    rw [hbeq]
    simp [rewriteParens]
  · decide

/-- Witness for `paren_rewrite_only_amount_chars`: the general part applied
to the content "$1,234", whose `$` is outside the amount character class. -/
theorem paren_rewrite_only_amount_chars_witness :
    rewriteParens ('(' :: ("$1,234".data ++ ')' :: [])) =
      '(' :: rewriteParens ("$1,234".data ++ ')' :: []) :=
  paren_rewrite_only_amount_chars.1 "$1,234".data [] ⟨'$', by decide, by decide⟩ (by decide)

/-- C8: value coercion turns `"(1,234.50)"` into -1234.5 and `"$2,000"` into
2000, sends unparseable values such as `"n/a"` to NaN instead of raising,
skips a column whose values are all absent, and never changes a column's
length or the position of any value. -/
theorem to_number_coercion_spec :
    _to_number [Cell.str "(1,234.50)"] = [Cell.num (-1234.5 : ℚ)] ∧
    _to_number [Cell.str "$2,000"] = [Cell.num 2000] ∧
    _to_number [Cell.str "n/a"] = [Cell.na] ∧
    (∀ (t : Table) (c : String) (vs : List Cell),
      List.lookup c t = some vs → vs.all (fun v => v == Cell.na) = true →
      coerceStep t c = t) ∧
    (∀ vs : List Cell, (_to_number vs).length = vs.length ∧
      ∀ i : Nat, (_to_number vs).getD i Cell.na = toNumberCell (vs.getD i Cell.na)) := by
  refine ⟨?_, by decide, by decide, ?_, ?_⟩
  · have h1 : _to_number [Cell.str "(1,234.50)"] = [Cell.num (Rat.divInt (-2469) 2)] := by
      decide
    rw [h1, show Rat.divInt (-2469) 2 = (-1234.5 : ℚ) by rw [Rat.divInt_eq_div]; norm_num]
  · intro t c vs hlk hall
    unfold coerceStep
    rw [hlk]
    simp [hall]
  · intro vs
    refine ⟨by simp [_to_number], ?_⟩
    intro i
    unfold _to_number List.getD
    rw [List.get?_map]
    cases h : vs.get? i with
    | none => rfl
    | some x => rfl

/-- Witness for `to_number_coercion_spec`: an all-NaN `GrossFee` column is
left untouched by the coercion step. -/
theorem to_number_coercion_spec_witness :
    coerceStep [("GrossFee", [Cell.na, Cell.na])] "GrossFee" =
      [("GrossFee", [Cell.na, Cell.na])] :=
  to_number_coercion_spec.2.2.2.1 [("GrossFee", [Cell.na, Cell.na])] "GrossFee"
    [Cell.na, Cell.na] (by decide) (by decide)

/-- Counterexample to C4: on a grid with no header row, `read_sheet` returns
the column-less `pd.DataFrame()` (line 78), not a table carrying the
Canonical Schema columns. -/
theorem read_sheet_no_header_counterexample :
    read_sheet [[some "hello"]] = [] ∧
    (read_sheet [[some "hello"]]).map Prod.fst ≠ TARGET_COLUMNS := by
  decide

/-- C4 (amended): for every raw grid in which no header row is found
(including the empty grid), `read_sheet` returns, without raising, the
explicitly empty table with zero rows and zero columns — the schema columns
are not present. -/
theorem read_sheet_no_header (raw : Grid)
    (h : find_header_row (rectify raw) = none) : read_sheet raw = [] := by
  unfold read_sheet
  by_cases he : raw.isEmpty
  · simp [he]
  · simp [he, h]

/-- Witness for `read_sheet_no_header` on a concrete anchor-less grid. -/
theorem read_sheet_no_header_witness :
    read_sheet [[some "Title page"], [some "JobNumber", some "Office"]] = [] :=
  read_sheet_no_header [[some "Title page"], [some "JobNumber", some "Office"]] (by decide)

/-- Counterexample to C5: a workbook that cannot be opened is caught by the
`except` of lines 176–181 and yields the schema-columned empty table as a
normal (non-error) outcome; nothing escalates. -/
theorem read_file_unopenable_counterexample :
    read_file ⟨false, []⟩ = Except.ok emptySchemaTable ∧
    ∀ e : String, read_file ⟨false, []⟩ ≠ Except.error e := by
  have h : read_file ⟨false, []⟩ = Except.ok emptySchemaTable := by
    unfold read_file
    simp
  refine ⟨h, fun e hcontra => ?_⟩
  rw [h] at hcontra
  cases hcontra

/-- C5 (amended): an unopenable workbook is caught and yields the explicitly
empty table with the Canonical Schema columns — the same non-error outcome
as a workbook whose every visible sheet fails or produces an empty table —
and `read_file` never returns an error outcome at all. -/
theorem read_file_spec_amended :
    (∀ wb : Workbook, wb.openable = false → read_file wb = Except.ok emptySchemaTable) ∧
    (∀ wb : Workbook,
      (∀ s ∈ wb.sheets, s.2.1 = true →
        ∀ g ∈ s.2.2.toList, tableEmpty (read_sheet g) = true) →
      read_file wb = Except.ok emptySchemaTable) ∧
    (∀ wb : Workbook, ∃ t, read_file wb = Except.ok t) := by
  refine ⟨?_, ?_, ?_⟩
  · intro wb h
    unfold read_file
    simp [h]
  · intro wb h
    unfold read_file
    by_cases hop : wb.openable
    · have hframes :
          (wb.sheets.filter (fun s => s.2.1)).filterMap (fun s =>
            match s.2.2 with
            | none => none
            | some g =>
              let df := read_sheet g
              if tableEmpty df then none else some df) = [] := by
        rw [List.filterMap_eq_nil]
        intro s hs
        have hmem := List.mem_filter.mp hs
        have hvis : s.2.1 = true := hmem.2
        have hempty := h s hmem.1 hvis
        cases hg : s.2.2 with
        | none => rfl
        | some g =>
          rw [hg] at hempty
          have := hempty g (by simp)
          simp [this]
      simp only [hop, not_true, if_neg, ite_false, ite_true, not_false_iff]
      rw [hframes]
      simp
    · simp [hop]
  · intro wb
    unfold read_file
    by_cases hop : wb.openable
    · by_cases hfr :
        ((wb.sheets.filter (fun s => s.2.1)).filterMap (fun s =>
          match s.2.2 with
          | none => none
          | some g =>
            let df := read_sheet g
            if tableEmpty df then none else some df)).isEmpty
      · exact ⟨emptySchemaTable, by simp [hop, hfr]⟩
      · exact ⟨concatTables ((wb.sheets.filter (fun s => s.2.1)).filterMap (fun s =>
          match s.2.2 with
          | none => none
          | some g =>
            let df := read_sheet g
            if tableEmpty df then none else some df)), by simp [hop, hfr]⟩
    · exact ⟨emptySchemaTable, by simp [hop]⟩

/-- Witness for `read_file_spec_amended`: a workbook whose only visible
sheet has no header row (so its table is empty) yields the schema-columned
empty table, via the second part of the theorem. -/
theorem read_file_spec_amended_witness :
    read_file ⟨true, [("Sheet1", true, some [[some "no header"]]),
                      ("Hidden", false, some [[some "x"]])]⟩ =
      Except.ok emptySchemaTable :=
  read_file_spec_amended.2.1
    ⟨true, [("Sheet1", true, some [[some "no header"]]),
            ("Hidden", false, some [[some "x"]])]⟩
    (by decide)

/-- Counterexample to C6: after blank replacement and duplicate renaming the
effective labels "Client" and "CLIENT" are distinct, yet share the
normalized form "client"; the normalized-label index therefore collides and
the later label overwrites the earlier (last-write-wins). -/
theorem normalized_map_collision_counterexample :
    cleanedCols [some "JobNumber", some "Currency", some "Client", some "CLIENT"] =
      ["JobNumber", "Currency", "Client", "CLIENT"] ∧
    normalize (some "Client") = normalize (some "CLIENT") ∧
    "Client" ≠ "CLIENT" ∧
    buildNormMap ["JobNumber", "Currency", "Client", "CLIENT"]
      (normalize (some "Client")) = some "CLIENT" := by
  decide

/-- The fold that builds `normalized_map` leaves a key untouched when no
processed label normalizes to it. -/
theorem buildNormMapFold_skip (k : String) :
    ∀ (cols : List String) (m : String → Option String),
      (∀ c ∈ cols, normalize (some c) ≠ k) →
      (cols.foldl (fun m c => fun x => if x = normalize (some c) then some c else m x) m) k
        = m k := by
  intro cols
  induction cols with
  | nil => intro m _; rfl
  | cons x xs ih =>
    intro m hk
    rw [List.foldl_cons]
    rw [ih _ (fun c hc => hk c (List.mem_cons_of_mem x hc))]
    have hx : normalize (some x) ≠ k := hk x (List.mem_cons_self x xs)
    rw [if_neg (fun e => hx e.symm)]

/-- The fold that builds `normalized_map` finds each label whose normalized
form is not shared with any other processed label. -/
theorem buildNormMapFold_mem :
    ∀ (cols : List String) (m : String → Option String) (c : String),
      c ∈ cols →
      (cols.map (fun c => normalize (some c))).Nodup →
      (cols.foldl (fun m c => fun x => if x = normalize (some c) then some c else m x) m)
        (normalize (some c)) = some c := by
  intro cols
  induction cols with
  | nil => intro m c hc; cases hc
  | cons x xs ih =>
    intro m c hc hnd
    rw [List.map_cons, List.nodup_cons] at hnd
    rw [List.foldl_cons]
    rcases List.mem_cons.mp hc with rfl | hmem
    · rw [buildNormMapFold_skip (normalize (some c)) xs _ (fun d hd e => hnd.1 (by
        rw [← e]
        exact List.mem_map_of_mem (fun c => normalize (some c)) hd))]
      simp
    · exact ih _ c hmem hnd.2

/-- C6 (amended): the normalized-label → effective-label index over the
cleaned header labels is a proper one-to-one mapping (each effective label is
retrieved by its own normalized form, nothing is overwritten) provided the
cleaned labels have pairwise-distinct normalized forms.  The deduplication
step guarantees the labels themselves are distinct, but not their normalized
forms, so without that proviso a later label overwrites an earlier one (see
`normalized_map_collision_counterexample`). -/
theorem buildNormMap_one_to_one (row : List RawCell)
    (hnd : ((cleanedCols row).map (fun c => normalize (some c))).Nodup) :
    ∀ c ∈ cleanedCols row,
      buildNormMap (cleanedCols row) (normalize (some c)) = some c := by
  intro c hc
  exact buildNormMapFold_mem (cleanedCols row) (fun _ => none) c hc hnd

/-- Witness for `buildNormMap_one_to_one` on a concrete header row. -/
theorem buildNormMap_one_to_one_witness :
    buildNormMap (cleanedCols [some "Job Number", some "Currency", some "Client"])
      (normalize (some "Job Number")) = some "Job Number" :=
  buildNormMap_one_to_one [some "Job Number", some "Currency", some "Client"]
    (by decide) "Job Number" (by decide)

/-- State evolution of the `seen_cols` dict over a list of header cells,
mirroring the updates of `dedupAux`. -/
def seenFold (i : Nat) (seen : String → Option Nat) : List RawCell → (String → Option Nat)
  | [] => seen
  | c :: rest =>
    let cl := cleanLabel i c
    match seen cl with
    | some n => seenFold (i + 1) (updSeen seen cl (n + 1)) rest
    | none => seenFold (i + 1) (updSeen seen cl 0) rest

/-- The dedup loop splits over list append, with the `seen` state threaded by
`seenFold`. -/
theorem dedupAux_append (B : List RawCell) :
    ∀ (A : List RawCell) (i : Nat) (seen : String → Option Nat),
      dedupAux i seen (A ++ B) =
        dedupAux i seen A ++ dedupAux (i + A.length) (seenFold i seen A) B := by
  intro A
  induction A with
  | nil => intro i seen; simp [dedupAux, seenFold]
  | cons c rest ih =>
    intro i seen
    simp only [List.cons_append, dedupAux, seenFold]
    cases h : seen (cleanLabel i c) with
    | some n =>
      have hih := ih (i + 1) (updSeen seen (cleanLabel i c) (n + 1))
      have harith : i + 1 + rest.length = i + (rest.length + 1) := by omega
      rw [harith] at hih
      simpa using congrArg (List.cons (cleanLabel i c ++ "_duplicate_" ++ toString (n + 1))) hih
    | none =>
      have hih := ih (i + 1) (updSeen seen (cleanLabel i c) 0)
      have harith : i + 1 + rest.length = i + (rest.length + 1) := by omega
      rw [harith] at hih
      simpa using congrArg (List.cons (cleanLabel i c)) hih

/-- `seenFold` leaves a key untouched when no processed cell's clean label
(at any position) equals it. -/
theorem seenFold_preserve (k : String) :
    ∀ (L : List RawCell) (i : Nat) (seen : String → Option Nat),
      (∀ c ∈ L, ∀ j, cleanLabel j c ≠ k) →
      seenFold i seen L k = seen k := by
  intro L
  induction L with
  | nil => intro i seen _; rfl
  | cons c rest ih =>
    intro i seen h
    have hck : cleanLabel i c ≠ k := h c (List.mem_cons_self c rest) i
    have hrest : ∀ c2 ∈ rest, ∀ j, cleanLabel j c2 ≠ k :=
      fun c2 hc2 => h c2 (List.mem_cons_of_mem c hc2)
    simp only [seenFold]
    cases hs : seen (cleanLabel i c) with
    | some n =>
      show seenFold (i + 1) (updSeen seen (cleanLabel i c) (n + 1)) rest k = seen k
      rw [ih (i + 1) _ hrest]
      unfold updSeen
      rw [if_neg (fun e => hck e.symm)]
    | none =>
      show seenFold (i + 1) (updSeen seen (cleanLabel i c) 0) rest k = seen k
      rw [ih (i + 1) _ hrest]
      unfold updSeen
      rw [if_neg (fun e => hck e.symm)]

/-- The dedup loop preserves list length. -/
theorem dedupAux_length :
    ∀ (L : List RawCell) (i : Nat) (seen : String → Option Nat),
      (dedupAux i seen L).length = L.length := by
  intro L
  induction L with
  | nil => intro i seen; rfl
  | cons c rest ih =>
    intro i seen
    simp only [dedupAux]
    cases hs : seen (cleanLabel i c) <;> simp [ih]

/-- String concatenation at the character-list level. -/
theorem string_data_append (a b : String) : (a ++ b).data = a.data ++ b.data := rfl

/-- `normChars` distributes over character-list append. -/
theorem normChars_append (l1 l2 : List Char) :
    normChars (l1 ++ l2) = normChars l1 ++ normChars l2 := by
  simp [normChars, List.filter_append]

/-- A renamed duplicate label never normalizes to "client": its normalized
form contains the nine characters "duplicate" and is therefore longer than
"client". -/
theorem normalize_duplicate_ne_client (x y : String) :
    normalize (some (x ++ "_duplicate_" ++ y)) ≠ "client" := by
  intro e
  have hdata : (x ++ "_duplicate_" ++ y).data = x.data ++ "_duplicate_".data ++ y.data := by
    rw [string_data_append, string_data_append]
  have hlen : (normalize (some (x ++ "_duplicate_" ++ y))).length =
      (normChars x.data).length + 9 + (normChars y.data).length := by
    show (String.mk (normChars (x ++ "_duplicate_" ++ y).data)).length = _
    rw [hdata, normChars_append, normChars_append]
    have h9 : (normChars "_duplicate_".data).length = 9 := by decide
    simp [String.length, h9]
    omega
  rw [e] at hlen
  have : ("client".length : Nat) = 6 := by decide
  omega

/-- Every label emitted by the dedup loop over client-free cells fails to
normalize to "client": it is either a clean label (excluded by hypothesis) or
a renamed duplicate (excluded by length). -/
theorem dedupAux_ne_client :
    ∀ (L : List RawCell) (i : Nat) (seen : String → Option Nat),
      (∀ c ∈ L, ∀ j, normalize (some (cleanLabel j c)) ≠ "client") →
      ∀ d ∈ dedupAux i seen L, normalize (some d) ≠ "client" := by
  intro L
  induction L with
  | nil => intro i seen _ d hd; cases hd
  | cons c rest ih =>
    intro i seen h d hd
    have hrest : ∀ c2 ∈ rest, ∀ j, normalize (some (cleanLabel j c2)) ≠ "client" :=
      fun c2 hc2 => h c2 (List.mem_cons_of_mem c hc2)
    simp only [dedupAux] at hd
    cases hs : seen (cleanLabel i c) with
    | some n =>
      rw [hs] at hd
      rcases List.mem_cons.mp hd with rfl | hmem
      · exact normalize_duplicate_ne_client (cleanLabel i c) (toString (n + 1))
      · exact ih (i + 1) _ hrest d hmem
    | none =>
      rw [hs] at hd
      rcases List.mem_cons.mp hd with rfl | hmem
      · exact h c (List.mem_cons_self c rest) i
      · exact ih (i + 1) _ hrest d hmem

/-- `getD` at the length of the prefix picks the element after it. -/
theorem getD_append_len {α : Type} (x d : α) (post : List α) :
    ∀ pre : List α, (pre ++ x :: post).getD pre.length d = x := by
  intro pre
  induction pre with
  | nil => rfl
  | cons a as ih => simpa using ih

/-- `idxOfStr` of the element after a prefix free of it. -/
theorem idxOfStr_append (a : String) (post : List String) :
    ∀ pre : List String, (∀ y ∈ pre, y ≠ a) →
      idxOfStr a (pre ++ a :: post) = pre.length := by
  intro pre
  induction pre with
  | nil => intro _; simp [idxOfStr]
  | cons x xs ih =>
    intro h
    have hx : x ≠ a := h x (List.mem_cons_self x xs)
    simp only [List.cons_append, idxOfStr, if_neg hx, List.length_cons]
    rw [show xs.append (a :: post) = xs ++ a :: post from rfl,
      ih (fun y hy => h y (List.mem_cons_of_mem x hy))]
    omega

/-- Lookup misses a `filterMap`-built association list whose keys avoid
the probe. -/
theorem lookup_filterMap_notmem {β : Type} (F : String → Option β) (t : String) :
    ∀ l : List String, t ∉ l →
      List.lookup t (l.filterMap (fun x => (F x).map (fun v => (x, v)))) = none := by
  intro l
  induction l with
  | nil => intro _; rfl
  | cons x xs ih =>
    intro ht
    have hne : t ≠ x := fun e => ht (e ▸ List.mem_cons_self x xs)
    have hxs : t ∉ xs := fun hm => ht (List.mem_cons_of_mem x hm)
    simp only [List.filterMap_cons]
    cases hF : F x with
    | none => exact ih hxs
    | some v =>
      have hb : (t == x) = false := by simpa using hne
      simp only [Option.map_some, List.lookup, hb]
      exact ih hxs

/-- Lookup in a `filterMap`-built association list over distinct keys
returns exactly the generator's value at the probed key. -/
theorem lookup_filterMap_pairs {β : Type} (F : String → Option β) (t : String) :
    ∀ l : List String, l.Nodup → t ∈ l →
      List.lookup t (l.filterMap (fun x => (F x).map (fun v => (x, v)))) = F t := by
  intro l
  induction l with
  | nil => intro _ ht; cases ht
  | cons x xs ih =>
    intro hnd ht
    rw [List.nodup_cons] at hnd
    simp only [List.filterMap_cons]
    rcases List.mem_cons.mp ht with rfl | hmem
    · cases hF : F t with
      | none => exact lookup_filterMap_notmem F t xs hnd.1
      | some v =>
        have hb : (t == t) = true := by simp
        simp only [Option.map_some, List.lookup, hb]
    · have hne : t ≠ x := fun e => hnd.1 (e ▸ hmem)
      cases hF : F x with
      | none => exact ih hnd.2 hmem
      | some v =>
        have hb : (t == x) = false := by simpa using hne
        simp only [Option.map_some, List.lookup, hb]
        exact ih hnd.2 hmem

/-- Lookup in a `map`-built association list returns the generator's value
at the first occurrence of the probed key. -/
theorem lookup_map_pairs {β : Type} (f : String → β) (t : String) :
    ∀ l : List String, t ∈ l →
      List.lookup t (l.map (fun x => (x, f x))) = some (f t) := by
  intro l
  induction l with
  | nil => intro ht; cases ht
  | cons x xs ih =>
    intro ht
    by_cases he : t = x
    · subst he
      simp [List.lookup]
    · have hb : (t == x) = false := by simpa using he
      simp only [List.map_cons, List.lookup, hb]
      exact ih (by rcases List.mem_cons.mp ht with e | hm; exact absurd e he; exact hm)

/-- Renaming-free per-column update: looking up a differently-named column
goes through the update map unchanged. -/
theorem lookup_map_update_other (name c : String) (hne : name ≠ c)
    (h : List Cell → List Cell) :
    ∀ t : Table,
      List.lookup name (t.map (fun p => if p.1 = c then (p.1, h p.2) else p)) =
        List.lookup name t := by
  intro t
  induction t with
  | nil => rfl
  | cons p ps ih =>
    by_cases hp : p.1 = c
    · rw [List.map_cons, if_pos hp]
      have hb : (name == p.1) = false := by
        have : name ≠ p.1 := fun e => hne (e.trans hp)
        simpa using this
      simp only [List.lookup, hb]
      exact ih
    · rw [List.map_cons, if_neg hp]
      cases hb : (name == p.1) with
      | true => simp [List.lookup, hb]
      | false => simp only [List.lookup, hb]; exact ih

/-- `coerceStep` does not disturb the column named differently from its
target. -/
theorem coerceStep_lookup_other (name c : String) (hne : name ≠ c) (t : Table) :
    List.lookup name (coerceStep t c) = List.lookup name t := by
  unfold coerceStep
  cases hlk : List.lookup c t with
  | none => rfl
  | some vs =>
    by_cases hall : vs.all (fun v => v == Cell.na)
    · simp [hall]
    · simp only [hall, Bool.false_eq_true, if_false, ite_false]
      exact lookup_map_update_other name c hne _to_number t

/-- The numeric-conversion fold does not disturb columns outside its name
list. -/
theorem coerceFold_lookup_other (name : String) :
    ∀ (cs : List String) (t : Table), name ∉ cs →
      List.lookup name (cs.foldl coerceStep t) = List.lookup name t := by
  intro cs
  induction cs with
  | nil => intro t _; rfl
  | cons c cs2 ih =>
    intro t hmem
    have h1 : name ≠ c := fun e => hmem (e ▸ List.mem_cons_self c cs2)
    have h2 : name ∉ cs2 := fun hm => hmem (List.mem_cons_of_mem c hm)
    rw [List.foldl_cons, ih _ h2, coerceStep_lookup_other name c h1]

/-- A non-blank label is cleaned to its stripped form at every position. -/
theorem cleanLabel_nonblank (s : String) (h : ¬ pyStrip s = "") (j : Nat) :
    cleanLabel j (some s) = pyStrip s := by
  simp only [cleanLabel]
  rw [if_neg h]

/-- Unfolding of `read_sheet` when a header row is found. -/
theorem read_sheet_found (raw : Grid) (hdr : Nat)
    (hne : raw.isEmpty = false)
    (hfind : find_header_row (rectify raw) = some hdr) :
    read_sheet raw =
      (if tableEmpty (reindexedTable (cleanedCols ((rectify raw).getD hdr []))
          ((rectify raw).drop (hdr + 1))) then
        TARGET_COLUMNS.map (fun t => (t, []))
      else
        numeric_columns.foldl coerceStep
          (reindexedTable (cleanedCols ((rectify raw).getD hdr []))
            ((rectify raw).drop (hdr + 1)))) := by
  unfold read_sheet
  rw [hne, hfind]
  rfl

/-- One dedup step on a "Client" header cell: fresh when unseen, renamed to
`Client_duplicate_1` on its second occurrence. -/
theorem dedupAux_cons_client (i : Nat) (seen : String → Option Nat) (rest : List RawCell) :
    (seen "Client" = none →
      dedupAux i seen (some "Client" :: rest) =
        "Client" :: dedupAux (i + 1) (updSeen seen "Client" 0) rest) ∧
    (seen "Client" = some 0 →
      dedupAux i seen (some "Client" :: rest) =
        "Client_duplicate_1" :: dedupAux (i + 1) (updSeen seen "Client" 1) rest) := by
  have hcl : cleanLabel i (some "Client") = "Client" :=
    (cleanLabel_nonblank "Client" (by decide) i).trans (by decide)
  constructor
  · intro h
    simp only [dedupAux, hcl, h]
  · intro h
    simp only [dedupAux, hcl, h]
    rw [show "Client" ++ "_duplicate_" ++ toString (0 + 1) = "Client_duplicate_1" from by decide]

/-- Pointwise-equal generators produce equal `filterMap`s. -/
theorem filterMapCongr {α β : Type} (f g : α → Option β) :
    ∀ l : List α, (∀ x ∈ l, f x = g x) → l.filterMap f = l.filterMap g := by
  intro l
  induction l with
  | nil => intro _; rfl
  | cons x xs ih =>
    intro h
    simp only [List.filterMap_cons, h x (List.mem_cons_self x xs)]
    cases g x <;> simp [ih (fun y hy => h y (List.mem_cons_of_mem x hy))]

/-- Counterexample to C7: in the header
`JobNumber, Currency, Client, Client, CLIENT` the second "Client" is renamed,
but the canonical "Client" output column copies the later "CLIENT" column
(normalized collision, last write wins), not the first occurrence, whose data
value here is "first". -/
theorem client_duplicate_counterexample :
    List.lookup "Client"
      (read_sheet [[some "JobNumber", some "Currency", some "Client", some "Client",
                    some "CLIENT"],
                   [some "J1", some "USD", some "first", some "second", some "third"]]) =
      some [Cell.str "third"] ∧
    Cell.str "third" ≠ Cell.str "first" := by
  decide

/-- C7 (amended): for every located header row of the shape
`A ++ [Client] ++ B ++ [Client] ++ C` in which no cell outside the two exact
"Client" occurrences produces an effective label normalizing to "client",
the first occurrence keeps the label "Client", the second becomes
"Client_duplicate_1", and the canonical "Client" output column copies the
data of the first occurrence (column index `A.length`).  Without the
normalization proviso the claim fails: a later label such as "CLIENT"
overwrites the normalized index (see `client_duplicate_counterexample`). -/
theorem read_sheet_client_duplicate (raw : Grid) (hdr : Nat) (A B C : List RawCell)
    (hfind : find_header_row (rectify raw) = some hdr)
    (hrow : (rectify raw).getD hdr [] = A ++ (some "Client" :: (B ++ (some "Client" :: C))))
    (hA : ∀ c ∈ A, ∀ j, normalize (some (cleanLabel j c)) ≠ "client")
    (hB : ∀ c ∈ B, ∀ j, normalize (some (cleanLabel j c)) ≠ "client")
    (hC : ∀ c ∈ C, ∀ j, normalize (some (cleanLabel j c)) ≠ "client") :
    (cleanedCols ((rectify raw).getD hdr [])).getD A.length "" = "Client" ∧
    (cleanedCols ((rectify raw).getD hdr [])).getD (A.length + 1 + B.length) "" =
      "Client_duplicate_1" ∧
    List.lookup "Client" (read_sheet raw) =
      some (((rectify raw).drop (hdr + 1)).map (fun r => cellOfRaw (r.getD A.length none))) := by
  -- labels produced outside the two occurrences are never the string "Client"
  have hlabelNe : ∀ (S : List RawCell),
      (∀ c ∈ S, ∀ j, normalize (some (cleanLabel j c)) ≠ "client") →
      ∀ c ∈ S, ∀ j, cleanLabel j c ≠ "Client" := by
    intro S hS c hc j e
    exact hS c hc j (by rw [e]; decide)
  -- the deduplicated label sequence
  have hsA : seenFold 0 (fun _ => none) A "Client" = none :=
    seenFold_preserve "Client" A 0 (fun _ => none) (hlabelNe A hA)
  have hs1 : updSeen (seenFold 0 (fun _ => none) A) "Client" 0 "Client" = some 0 := by
    unfold updSeen
    simp
  have hsB : seenFold (0 + A.length + 1)
      (updSeen (seenFold 0 (fun _ => none) A) "Client" 0) B "Client" = some 0 :=
    (seenFold_preserve "Client" B (0 + A.length + 1) _ (hlabelNe B hB)).trans hs1
  have hcc : cleanedCols ((rectify raw).getD hdr []) =
      dedupAux 0 (fun _ => none) A ++
        "Client" ::
          (dedupAux (0 + A.length + 1) (updSeen (seenFold 0 (fun _ => none) A) "Client" 0) B ++
            "Client_duplicate_1" ::
              dedupAux (0 + A.length + 1 + B.length + 1)
                (updSeen (seenFold (0 + A.length + 1)
                  (updSeen (seenFold 0 (fun _ => none) A) "Client" 0) B) "Client" 1) C) := by
    rw [hrow]
    show dedupAux 0 (fun _ => none) (A ++ (some "Client" :: (B ++ (some "Client" :: C)))) = _
    rw [dedupAux_append (some "Client" :: (B ++ (some "Client" :: C))) A 0 (fun _ => none)]
    rw [(dedupAux_cons_client (0 + A.length) (seenFold 0 (fun _ => none) A)
      (B ++ (some "Client" :: C))).1 hsA]
    rw [dedupAux_append (some "Client" :: C) B (0 + A.length + 1)
      (updSeen (seenFold 0 (fun _ => none) A) "Client" 0)]
    rw [(dedupAux_cons_client (0 + A.length + 1 + B.length)
      (seenFold (0 + A.length + 1) (updSeen (seenFold 0 (fun _ => none) A) "Client" 0) B)
      C).2 hsB]
  have houtA : (dedupAux 0 (fun _ => none) A).length = A.length := dedupAux_length A 0 _
  have houtB : (dedupAux (0 + A.length + 1)
      (updSeen (seenFold 0 (fun _ => none) A) "Client" 0) B).length = B.length :=
    dedupAux_length B _ _
  -- no label outside the two occurrences normalizes to "client"
  have hneA : ∀ d ∈ dedupAux 0 (fun _ => none) A, normalize (some d) ≠ "client" :=
    dedupAux_ne_client A 0 _ hA
  have hneB : ∀ d ∈ dedupAux (0 + A.length + 1)
      (updSeen (seenFold 0 (fun _ => none) A) "Client" 0) B,
      normalize (some d) ≠ "client" :=
    dedupAux_ne_client B _ _ hB
  have hneC : ∀ d ∈ dedupAux (0 + A.length + 1 + B.length + 1)
      (updSeen (seenFold (0 + A.length + 1)
        (updSeen (seenFold 0 (fun _ => none) A) "Client" 0) B) "Client" 1) C,
      normalize (some d) ≠ "client" :=
    dedupAux_ne_client C _ _ hC
  refine ⟨?_, ?_, ?_⟩
  · rw [hcc, ← houtA]
    exact getD_append_len "Client" "" _ _
  · rw [hcc]
    rw [show dedupAux 0 (fun _ => none) A ++
        "Client" ::
          (dedupAux (0 + A.length + 1) (updSeen (seenFold 0 (fun _ => none) A) "Client" 0) B ++
            "Client_duplicate_1" :: _) =
        (dedupAux 0 (fun _ => none) A ++
          "Client" ::
            dedupAux (0 + A.length + 1) (updSeen (seenFold 0 (fun _ => none) A) "Client" 0) B) ++
          "Client_duplicate_1" ::
            dedupAux (0 + A.length + 1 + B.length + 1)
              (updSeen (seenFold (0 + A.length + 1)
                (updSeen (seenFold 0 (fun _ => none) A) "Client" 0) B) "Client" 1) C from by
      simp]
    rw [show A.length + 1 + B.length =
        (dedupAux 0 (fun _ => none) A ++
          "Client" ::
            dedupAux (0 + A.length + 1)
              (updSeen (seenFold 0 (fun _ => none) A) "Client" 0) B).length from by
      rw [List.length_append, List.length_cons, houtA, houtB]
      omega]
    exact getD_append_len "Client_duplicate_1" "" _ _
  · -- the raw grid is non-empty since a header was found
    cases raw with
    | nil => exact Option.noConfusion hfind
    | cons r0 rs =>
    have hne : (r0 :: rs : Grid).isEmpty = false := rfl
    rw [read_sheet_found (r0 :: rs) hdr hne hfind]
    -- the normalized index sends "client" to the first "Client"
    have hmap : buildNormMap (cleanedCols ((rectify (r0 :: rs)).getD hdr [])) "client" =
        some "Client" := by
      rw [hcc]
      unfold buildNormMap
      rw [List.foldl_append, List.foldl_cons, List.foldl_append, List.foldl_cons]
      rw [buildNormMapFold_skip "client" _ _ hneC]
      rw [show (normalize (some "Client_duplicate_1")) = "clientduplicate1" from by decide]
      rw [buildNormMapFold_skip "client" _ _ hneB]
      rw [show (normalize (some "Client")) = "client" from by decide]
      simp
    have hresolve : resolveTarget (cleanedCols ((rectify (r0 :: rs)).getD hdr [])) "Client" =
        some "Client" := by
      show List.findSome?
        (fun p => buildNormMap (cleanedCols ((rectify (r0 :: rs)).getD hdr []))
          (normalize (some p))) ["Client"] = some "Client"
      rw [List.findSome?_cons]
      rw [show (normalize (some "Client")) = "client" from by decide, hmap]
    have hidx : idxOfStr "Client" (cleanedCols ((rectify (r0 :: rs)).getD hdr [])) = A.length := by
      rw [hcc, ← houtA]
      exact idxOfStr_append "Client" _ _
        (fun y hy e => hneA y hy (by rw [e]; decide))
    -- lookup in the resolved table
    have hlk0 : List.lookup "Client"
        (resolvedTable (cleanedCols ((rectify (r0 :: rs)).getD hdr []))
          ((rectify (r0 :: rs)).drop (hdr + 1))) =
        some (dataColumn ((rectify (r0 :: rs)).drop (hdr + 1)) A.length) := by
      unfold resolvedTable
      rw [filterMapCongr
        (fun t =>
          (resolveTarget (cleanedCols ((rectify (r0 :: rs)).getD hdr [])) t).map
            (fun a => (t, dataColumn ((rectify (r0 :: rs)).drop (hdr + 1))
              (idxOfStr a (cleanedCols ((rectify (r0 :: rs)).getD hdr []))))))
        (fun t =>
          ((resolveTarget (cleanedCols ((rectify (r0 :: rs)).getD hdr [])) t).map
            (fun a => dataColumn ((rectify (r0 :: rs)).drop (hdr + 1))
              (idxOfStr a (cleanedCols ((rectify (r0 :: rs)).getD hdr []))))).map
            (fun v => (t, v)))
        TARGET_COLUMNS
        (fun x _ => (Option.map_map _ _ _).symm)]
      rw [lookup_filterMap_pairs _ "Client" TARGET_COLUMNS (by decide) (by decide)]
      rw [hresolve]
      exact congrArg some (congrArg (dataColumn ((rectify (r0 :: rs)).drop (hdr + 1))) hidx)
    -- lookup in the reindexed table
    have hlk1 : List.lookup "Client"
        (reindexedTable (cleanedCols ((rectify (r0 :: rs)).getD hdr []))
          ((rectify (r0 :: rs)).drop (hdr + 1))) =
        some (dataColumn ((rectify (r0 :: rs)).drop (hdr + 1)) A.length) := by
      unfold reindexedTable
      rw [lookup_map_pairs _ "Client" TARGET_COLUMNS (by decide)]
      rw [hlk0]
    by_cases htab : tableEmpty
        (reindexedTable (cleanedCols ((rectify (r0 :: rs)).getD hdr []))
          ((rectify (r0 :: rs)).drop (hdr + 1))) = true
    · rw [if_pos htab]
      -- every column of the reindexed table is empty, so there are no data rows
      have hmem : ("Client", dataColumn ((rectify (r0 :: rs)).drop (hdr + 1)) A.length) ∈
          reindexedTable (cleanedCols ((rectify (r0 :: rs)).getD hdr []))
            ((rectify (r0 :: rs)).drop (hdr + 1)) := by
        unfold reindexedTable
        have : ("Client" : String) ∈ TARGET_COLUMNS := by decide
        have h2 := List.mem_map_of_mem (fun t =>
          (t, match List.lookup t (resolvedTable (cleanedCols ((rectify (r0 :: rs)).getD hdr []))
                ((rectify (r0 :: rs)).drop (hdr + 1))) with
              | some vs => vs
              | none => List.replicate (rowCount (resolvedTable
                  (cleanedCols ((rectify (r0 :: rs)).getD hdr []))
                  ((rectify (r0 :: rs)).drop (hdr + 1)))) Cell.na)) this
        beta_reduce at h2
        rw [show List.lookup "Client" (resolvedTable (cleanedCols ((rectify (r0 :: rs)).getD hdr []))
              ((rectify (r0 :: rs)).drop (hdr + 1))) =
            some (dataColumn ((rectify (r0 :: rs)).drop (hdr + 1)) A.length) from hlk0] at h2
        exact h2
      have hdataEmpty : ((rectify (r0 :: rs)).drop (hdr + 1)) = [] := by
        unfold tableEmpty at htab
        rcases Bool.or_eq_true_iff.mp htab with hemp | hall
        · exfalso
          have : reindexedTable (cleanedCols ((rectify (r0 :: rs)).getD hdr []))
              ((rectify (r0 :: rs)).drop (hdr + 1)) ≠ [] := by
            intro e
            rw [e] at hmem
            cases hmem
          rcases List.isEmpty_iff.mp hemp with e
          exact this e
        · have := List.all_eq_true.mp hall _ hmem
          have hcol : (dataColumn ((rectify (r0 :: rs)).drop (hdr + 1)) A.length).isEmpty = true :=
            this
          unfold dataColumn at hcol
          rcases List.isEmpty_iff.mp hcol with e
          exact List.map_eq_nil_iff.mp e
      rw [lookup_map_pairs (fun _ => ([] : List Cell)) "Client" TARGET_COLUMNS (by decide)]
      rw [hdataEmpty]
      rfl
    · rw [if_neg htab]
      rw [coerceFold_lookup_other "Client" numeric_columns _ (by decide)]
      exact hlk1

/-- Witness for `read_sheet_client_duplicate`: with header
`JobNumber, Currency, Client, Client` and one data row, the canonical
"Client" column copies the first occurrence's value "first". -/
theorem read_sheet_client_duplicate_witness :
    List.lookup "Client"
      (read_sheet [[some "JobNumber", some "Currency", some "Client", some "Client"],
                   [some "J", some "USD", some "first", some "second"]]) =
      some [Cell.str "first"] := by
  have h := (read_sheet_client_duplicate
    [[some "JobNumber", some "Currency", some "Client", some "Client"],
     [some "J", some "USD", some "first", some "second"]]
    0 [some "JobNumber", some "Currency"] [] []
    (by decide) (by decide)
    (by
      intro c hc j
      rcases List.mem_cons.mp hc with rfl | hc2
      · rw [cleanLabel_nonblank "JobNumber" (by decide) j]
        decide
      rcases List.mem_cons.mp hc2 with rfl | hc3
      · rw [cleanLabel_nonblank "Currency" (by decide) j]
        decide
      cases hc3)
    (by intro c hc; cases hc)
    (by intro c hc; cases hc)).2.2
  rw [h]
  decide

/-- A successful lookup locates a member pair. -/
theorem lookup_mem {β : Type} :
    ∀ (l : List (String × β)) (a : String) (b : β),
      List.lookup a l = some b → (a, b) ∈ l := by
  intro l
  induction l with
  | nil => intro a b h; cases h
  | cons p ps ih =>
    intro a b h
    simp only [List.lookup] at h
    cases hb : (a == p.1) with
    | true =>
      rw [hb] at h
      have ha : a = p.1 := eq_of_beq hb
      have hbv : b = p.2 := by
        cases h
        rfl
      rw [ha, hbv]
      exact List.mem_cons_self p ps
    | false =>
      rw [hb] at h
      exact List.mem_cons_of_mem p (ih a b h)

/-- `coerceStep` preserves every column's name and length. -/
theorem coerceStep_shape (t : Table) (c : String) :
    (coerceStep t c).map (fun p => (p.1, p.2.length)) =
      t.map (fun p => (p.1, p.2.length)) := by
  unfold coerceStep
  cases hlk : List.lookup c t with
  | none => rfl
  | some vs =>
    by_cases hall : vs.all (fun v => v == Cell.na)
    · simp [hall]
    · simp only [hall, Bool.false_eq_true, if_false, ite_false, List.map_map]
      apply List.map_congr_left
      intro p _
      by_cases hp : p.1 = c <;> simp [hp, _to_number]

/-- The numeric-conversion fold preserves every column's name and length. -/
theorem coerceFold_shape :
    ∀ (cs : List String) (t : Table),
      (cs.foldl coerceStep t).map (fun p => (p.1, p.2.length)) =
        t.map (fun p => (p.1, p.2.length)) := by
  intro cs
  induction cs with
  | nil => intro t; rfl
  | cons c cs2 ih =>
    intro t
    rw [List.foldl_cons, ih, coerceStep_shape]

/-- `coerceStep` leaves an all-NaN column in place even when it targets it. -/
theorem coerceStep_lookup_allna (t : Table) (name c : String) (vs : List Cell)
    (hlk : List.lookup name t = some vs)
    (hall : vs.all (fun v => v == Cell.na) = true) :
    List.lookup name (coerceStep t c) = some vs := by
  by_cases he : name = c
  · subst he
    unfold coerceStep
    rw [hlk]
    simp [hall, hlk]
  · rw [coerceStep_lookup_other name c he t]
    exact hlk

/-- The numeric-conversion fold leaves an all-NaN column untouched. -/
theorem coerceFold_lookup_allna :
    ∀ (cs : List String) (t : Table) (name : String) (vs : List Cell),
      List.lookup name t = some vs →
      vs.all (fun v => v == Cell.na) = true →
      List.lookup name (cs.foldl coerceStep t) = some vs := by
  intro cs
  induction cs with
  | nil => intro t name vs hlk _; exact hlk
  | cons c cs2 ih =>
    intro t name vs hlk hall
    rw [List.foldl_cons]
    exact ih _ name vs (coerceStep_lookup_allna t name c vs hlk hall) hall

/-- Every column copied into the resolved table has exactly the data rows'
length. -/
theorem resolvedTable_mem_len (cleaned : List String) (dataRows : List (List RawCell)) :
    ∀ p ∈ resolvedTable cleaned dataRows, p.2.length = dataRows.length := by
  intro p hp
  obtain ⟨t, _, ht⟩ := List.mem_filterMap.mp hp
  cases hres : resolveTarget cleaned t with
  | none => rw [hres] at ht; cases ht
  | some a =>
    rw [hres] at ht
    have ht2 : (t, dataColumn dataRows (idxOfStr a cleaned)) = p := Option.some.inj ht
    rw [← ht2]
    simp [dataColumn]

/-- When at least one column resolved, the resolved table's row count is the
number of data rows. -/
theorem resolvedTable_rowCount (cleaned : List String) (dataRows : List (List RawCell))
    (hne : resolvedTable cleaned dataRows ≠ []) :
    rowCount (resolvedTable cleaned dataRows) = dataRows.length := by
  cases hc : resolvedTable cleaned dataRows with
  | nil => exact absurd hc hne
  | cons p ps =>
    show p.2.length = dataRows.length
    exact resolvedTable_mem_len cleaned dataRows p (hc ▸ List.mem_cons_self p ps)

/-- The resolved table, reshaped for lookup lemmas. -/
theorem resolvedTable_shape (cleaned : List String) (dataRows : List (List RawCell)) :
    resolvedTable cleaned dataRows =
      TARGET_COLUMNS.filterMap (fun t =>
        ((resolveTarget cleaned t).map
          (fun a => dataColumn dataRows (idxOfStr a cleaned))).map (fun v => (t, v))) := by
  unfold resolvedTable
  exact filterMapCongr _ _ TARGET_COLUMNS (fun x _ => (Option.map_map _ _ _).symm)

/-- Lookup of any canonical column in the resolved table. -/
theorem resolvedTable_lookup (cleaned : List String) (dataRows : List (List RawCell))
    (t : String) (ht : t ∈ TARGET_COLUMNS) :
    List.lookup t (resolvedTable cleaned dataRows) =
      (resolveTarget cleaned t).map (fun a => dataColumn dataRows (idxOfStr a cleaned)) := by
  rw [resolvedTable_shape]
  exact lookup_filterMap_pairs _ t TARGET_COLUMNS (by decide) ht

/-- An all-NaN filler column is indeed all NaN. -/
theorem replicate_all_na (n : Nat) :
    (List.replicate n Cell.na).all (fun v => v == Cell.na) = true := by
  rw [List.all_eq_true]
  intro x hx
  rw [List.eq_of_mem_replicate hx]
  rfl

/-- C1: whenever a header row is located and at least one canonical column's
candidate matches a sheet header, `read_sheet` returns a table whose columns
are exactly the 18 `TARGET_COLUMNS` in order, whose every column has exactly
one value per data row below the header, and whose unmatched canonical
columns are filled entirely with NaN. -/
theorem read_sheet_schema_spec (raw : Grid) (hdr : Nat)
    (hfind : find_header_row (rectify raw) = some hdr)
    (hmatch : ∃ t ∈ TARGET_COLUMNS,
      resolveTarget (cleanedCols ((rectify raw).getD hdr [])) t ≠ none) :
    (read_sheet raw).map Prod.fst = TARGET_COLUMNS ∧
    (∀ p ∈ read_sheet raw, p.2.length = raw.length - (hdr + 1)) ∧
    (∀ t ∈ TARGET_COLUMNS,
      resolveTarget (cleanedCols ((rectify raw).getD hdr [])) t = none →
      List.lookup t (read_sheet raw) =
        some (List.replicate (raw.length - (hdr + 1)) Cell.na)) := by
  cases raw with
  | nil => exact Option.noConfusion hfind
  | cons r0 rs =>
  have hne : (r0 :: rs : Grid).isEmpty = false := rfl
  rw [read_sheet_found (r0 :: rs) hdr hne hfind]
  have hdlen : ((rectify (r0 :: rs)).drop (hdr + 1)).length = (r0 :: rs).length - (hdr + 1) := by
    rw [List.length_drop]
    simp [rectify]
  -- the resolved table is non-empty
  obtain ⟨t0, ht0, hres0⟩ := hmatch
  obtain ⟨a0, ha0⟩ := Option.ne_none_iff_exists'.mp hres0
  have hmem0 : (t0, dataColumn ((rectify (r0 :: rs)).drop (hdr + 1))
      (idxOfStr a0 (cleanedCols ((rectify (r0 :: rs)).getD hdr [])))) ∈
      resolvedTable (cleanedCols ((rectify (r0 :: rs)).getD hdr []))
        ((rectify (r0 :: rs)).drop (hdr + 1)) := by
    apply List.mem_filterMap.mpr
    exact ⟨t0, ht0, by rw [ha0]; rfl⟩
  have hne0 : resolvedTable (cleanedCols ((rectify (r0 :: rs)).getD hdr []))
      ((rectify (r0 :: rs)).drop (hdr + 1)) ≠ [] :=
    List.ne_nil_of_mem hmem0
  have hrc : rowCount (resolvedTable (cleanedCols ((rectify (r0 :: rs)).getD hdr []))
      ((rectify (r0 :: rs)).drop (hdr + 1))) =
      ((rectify (r0 :: rs)).drop (hdr + 1)).length :=
    resolvedTable_rowCount _ _ hne0
  -- every column of the reindexed table has the data rows' length
  have hreidx_len : ∀ p ∈ reindexedTable (cleanedCols ((rectify (r0 :: rs)).getD hdr []))
      ((rectify (r0 :: rs)).drop (hdr + 1)),
      p.2.length = ((rectify (r0 :: rs)).drop (hdr + 1)).length := by
    intro p hp
    obtain ⟨t, _, ht⟩ := List.mem_map.mp hp
    rw [← ht]
    show (match List.lookup t (resolvedTable (cleanedCols ((rectify (r0 :: rs)).getD hdr []))
        ((rectify (r0 :: rs)).drop (hdr + 1))) with
      | some vs => vs
      | none => List.replicate (rowCount (resolvedTable
          (cleanedCols ((rectify (r0 :: rs)).getD hdr []))
          ((rectify (r0 :: rs)).drop (hdr + 1)))) Cell.na).length = _
    cases hlk : List.lookup t (resolvedTable (cleanedCols ((rectify (r0 :: rs)).getD hdr []))
        ((rectify (r0 :: rs)).drop (hdr + 1))) with
    | some vs =>
      exact resolvedTable_mem_len _ _ (t, vs) (lookup_mem _ t vs hlk)
    | none =>
      rw [List.length_replicate, hrc]
  by_cases htab : tableEmpty
      (reindexedTable (cleanedCols ((rectify (r0 :: rs)).getD hdr []))
        ((rectify (r0 :: rs)).drop (hdr + 1))) = true
  · rw [if_pos htab]
    -- the matched column is empty, so there are no data rows at all
    have hlkt0 : List.lookup t0 (reindexedTable (cleanedCols ((rectify (r0 :: rs)).getD hdr []))
        ((rectify (r0 :: rs)).drop (hdr + 1))) =
        some (dataColumn ((rectify (r0 :: rs)).drop (hdr + 1))
          (idxOfStr a0 (cleanedCols ((rectify (r0 :: rs)).getD hdr [])))) := by
      unfold reindexedTable
      rw [lookup_map_pairs _ t0 TARGET_COLUMNS ht0]
      rw [resolvedTable_lookup _ _ t0 ht0, ha0]
      rfl
    have hdata0 : ((rectify (r0 :: rs)).drop (hdr + 1)) = [] := by
      have hmemr := lookup_mem _ t0 _ hlkt0
      unfold tableEmpty at htab
      rcases Bool.or_eq_true_iff.mp htab with hemp | hall
      · exfalso
        rcases List.isEmpty_iff.mp hemp with e
        rw [e] at hmemr
        cases hmemr
      · have hpe : (dataColumn ((rectify (r0 :: rs)).drop (hdr + 1))
            (idxOfStr a0 (cleanedCols ((rectify (r0 :: rs)).getD hdr [])))).isEmpty = true :=
          List.all_eq_true.mp hall _ hmemr
        have hnil := List.isEmpty_iff.mp hpe
        unfold dataColumn at hnil
        exact List.map_eq_nil_iff.mp hnil
    refine ⟨?_, ?_, ?_⟩
    · rw [List.map_map]
      exact List.map_id'' (fun _ => rfl) TARGET_COLUMNS
    · intro p hp
      obtain ⟨t, _, ht⟩ := List.mem_map.mp hp
      rw [← ht]
      show ([] : List Cell).length = _
      rw [← hdlen, hdata0]
      rfl
    · intro t ht _
      rw [lookup_map_pairs (fun _ => ([] : List Cell)) t TARGET_COLUMNS ht]
      rw [← hdlen, hdata0]
      rfl
  · rw [if_neg htab]
    refine ⟨?_, ?_, ?_⟩
    · have h1 := coerceFold_shape numeric_columns
        (reindexedTable (cleanedCols ((rectify (r0 :: rs)).getD hdr []))
          ((rectify (r0 :: rs)).drop (hdr + 1)))
      have h2 : ∀ tb : Table, (tb.map (fun p => (p.1, p.2.length))).map Prod.fst =
          tb.map Prod.fst := by
        intro tb
        rw [List.map_map]
        exact List.map_congr_left (fun p _ => rfl)
      have h3 := congrArg (List.map Prod.fst) h1
      rw [h2, h2] at h3
      rw [h3]
      unfold reindexedTable
      rw [List.map_map]
      exact List.map_id'' (fun _ => rfl) TARGET_COLUMNS
    · intro p hp
      have h1 := coerceFold_shape numeric_columns
        (reindexedTable (cleanedCols ((rectify (r0 :: rs)).getD hdr []))
          ((rectify (r0 :: rs)).drop (hdr + 1)))
      have hp2 : (p.1, p.2.length) ∈ (reindexedTable
          (cleanedCols ((rectify (r0 :: rs)).getD hdr []))
          ((rectify (r0 :: rs)).drop (hdr + 1))).map (fun p => (p.1, p.2.length)) := by
        rw [← h1]
        exact List.mem_map_of_mem _ hp
      obtain ⟨q, hq, hqe⟩ := List.mem_map.mp hp2
      have := hreidx_len q hq
      have hlen : p.2.length = q.2.length := by
        have := congrArg Prod.snd hqe
        simpa using this.symm
      rw [hlen, this, hdlen]
    · intro t ht hresnone
      have hlkr : List.lookup t (reindexedTable (cleanedCols ((rectify (r0 :: rs)).getD hdr []))
          ((rectify (r0 :: rs)).drop (hdr + 1))) =
          some (List.replicate ((r0 :: rs).length - (hdr + 1)) Cell.na) := by
        unfold reindexedTable
        rw [lookup_map_pairs _ t TARGET_COLUMNS ht]
        rw [resolvedTable_lookup _ _ t ht, hresnone]
        rw [show (Option.map (fun a => dataColumn ((rectify (r0 :: rs)).drop (hdr + 1))
            (idxOfStr a (cleanedCols ((rectify (r0 :: rs)).getD hdr [])))) none) =
            (none : Option (List Cell)) from rfl]
        rw [hrc, hdlen]
      rw [coerceFold_lookup_allna numeric_columns _ t _ hlkr
        (replicate_all_na ((r0 :: rs).length - (hdr + 1)))]

/-- Witness for `read_sheet_schema_spec`: a two-column sheet with one data
row yields all 18 canonical columns, each of length one, with the 16
unmatched columns all NaN. -/
theorem read_sheet_schema_spec_witness :
    (read_sheet [[some "JobNumber", some "Currency"], [some "J1", some "USD"]]).map
      Prod.fst = TARGET_COLUMNS ∧
    (∀ p ∈ read_sheet [[some "JobNumber", some "Currency"], [some "J1", some "USD"]],
      p.2.length =
        ([[some "JobNumber", some "Currency"], [some "J1", some "USD"]] : Grid).length -
          (0 + 1)) ∧
    (∀ t ∈ TARGET_COLUMNS,
      resolveTarget (cleanedCols ((rectify [[some "JobNumber", some "Currency"],
        [some "J1", some "USD"]]).getD 0 [])) t = none →
      List.lookup t (read_sheet [[some "JobNumber", some "Currency"], [some "J1", some "USD"]]) =
        some (List.replicate (([[some "JobNumber", some "Currency"],
          [some "J1", some "USD"]] : Grid).length - (0 + 1)) Cell.na)) :=
  read_sheet_schema_spec [[some "JobNumber", some "Currency"], [some "J1", some "USD"]] 0
    (by decide) ⟨"JobNumber", by decide, by decide⟩

end FinanceOB
